import Mathlib

/-!
Verification of `nonlinear_solvers/solvers.py`: Newton-Raphson iteration,
bisection, and a composite solver that falls back from the former to the
latter on convergence failure.

Numbers are modelled as rationals (exact arithmetic); the exceptions the
Python code can raise are modelled by the inductive type `Err`:
`ConvergenceError("Max Iteration Reached")`, `ValueError("Input are of the
same sign")`, and the `ZeroDivisionError` Python raises when `f(x)/df(x)`
divides by zero.  Iteration caps and counters are integers, like Python's.
-/

namespace NonlinearSolvers

/-- The failure signals the module can produce. -/
inductive Err where
  | convergenceError
  | valueError
  | zeroDivisionError
deriving DecidableEq, Repr

/-- The `while` loop of `newton_raphson` (lines 33-37): starting from the
state `(x, k)`, while `abs(f(x)) > eps and k <= max_its`, update
`x = x - f(x)/df(x)` and `k += 1`.  Python raises `ZeroDivisionError` when
`df(x) == 0`.  Returns the state at loop exit. -/
def newtonLoop (f df : ℚ → ℚ) (eps : ℚ) (max_its : ℤ) (x : ℚ) (k : ℤ) :
    Except Err (ℚ × ℤ) :=
  if h : |f x| > eps ∧ k ≤ max_its then
    if df x = 0 then .error .zeroDivisionError
    else newtonLoop f df eps max_its (x - f x / df x) (k + 1)
  else .ok (x, k)
termination_by (max_its + 1 - k).toNat
decreasing_by
  have := h.2
  omega

/-- `newton_raphson(f, df, x_0, eps, max_its)` (lines 9-41): run the loop
from `(x_0, 1)`; afterwards, if `k == max_its + 1` and `abs(f(x)) > eps`,
raise `ConvergenceError`, otherwise return `x`. -/
def newton_raphson (f df : ℚ → ℚ) (x_0 : ℚ) (eps : ℚ) (max_its : ℤ) :
    Except Err ℚ :=
  match newtonLoop f df eps max_its x_0 1 with
  | .error e => .error e
  | .ok (x, k) =>
      if k = max_its + 1 ∧ |f x| > eps then .error .convergenceError
      else .ok x

/-- The bisection loop state: bracket endpoints `a`, `b`, midpoint `c`,
iteration counter `k`. -/
structure BisectState where
  a : ℚ
  b : ℚ
  c : ℚ
  k : ℤ
deriving DecidableEq, Repr

/-- One body execution of the `while` loop of `bisection` (lines 78-83):
if `f(a)*f(c) > 0` set `a = c` else set `b = c`; then `k += 1` and
`c = (a+b)/2`. -/
def bisectStep (f : ℚ → ℚ) (s : BisectState) : BisectState :=
  if f s.a * f s.c > 0 then
    { a := s.c, b := s.b, c := (s.c + s.b) / 2, k := s.k + 1 }
  else
    { a := s.a, b := s.c, c := (s.a + s.c) / 2, k := s.k + 1 }

/-- The `while` loop of `bisection` (line 77): repeat `bisectStep` while
`abs(f(c)) > eps and k <= max_its`; returns the state at loop exit. -/
def bisectLoop (f : ℚ → ℚ) (eps : ℚ) (max_its : ℤ) (s : BisectState) :
    BisectState :=
  if h : |f s.c| > eps ∧ s.k ≤ max_its then
    bisectLoop f eps max_its (bisectStep f s)
  else s
termination_by (max_its + 1 - s.k).toNat
decreasing_by
  have := h.2
  dsimp only [bisectStep]
  split <;> dsimp only <;> omega

/-- `bisection(f, x_0, x_1, eps, max_its)` (lines 45-87): set `k=1`,
`a=x_0`, `b=x_1`, `c=(a+b)/2`; if `f(a)*f(b) > 0` raise `ValueError`;
otherwise run the loop, and at exit raise `ConvergenceError` when
`k == max_its + 1` and `abs(f(c)) > eps`, else return `c`. -/
def bisection (f : ℚ → ℚ) (x_0 x_1 : ℚ) (eps : ℚ) (max_its : ℤ) :
    Except Err ℚ :=
  if f x_0 * f x_1 > 0 then .error .valueError
  else
    let s := bisectLoop f eps max_its ⟨x_0, x_1, (x_0 + x_1) / 2, 1⟩
    if s.k = max_its + 1 ∧ |f s.c| > eps then .error .convergenceError
    else .ok s.c

/-- `solve(f, df, x_0, x_1, eps, max_its_n, max_its_b)` (lines 90-126):
try `newton_raphson`; on `ConvergenceError` (and only on that exception)
fall back to `bisection`; other exceptions propagate. -/
def solve (f df : ℚ → ℚ) (x_0 x_1 : ℚ) (eps : ℚ) (max_its_n max_its_b : ℤ) :
    Except Err ℚ :=
  match newton_raphson f df x_0 eps max_its_n with
  | .ok x => .ok x
  | .error .convergenceError => bisection f x_0 x_1 eps max_its_b
  | .error e => .error e

/-! ### Loop unfolding lemmas -/

theorem newtonLoop_exit (f df : ℚ → ℚ) (eps : ℚ) (m : ℤ) (x : ℚ) (k : ℤ)
    (h : ¬(|f x| > eps ∧ k ≤ m)) : newtonLoop f df eps m x k = .ok (x, k) := by
  rw [newtonLoop]
  simp only [dif_neg h]

theorem newtonLoop_div0 (f df : ℚ → ℚ) (eps : ℚ) (m : ℤ) (x : ℚ) (k : ℤ)
    (h : |f x| > eps ∧ k ≤ m) (hdf : df x = 0) :
    newtonLoop f df eps m x k = .error .zeroDivisionError := by
  rw [newtonLoop]
  simp only [dif_pos h, if_pos hdf]

theorem newtonLoop_step (f df : ℚ → ℚ) (eps : ℚ) (m : ℤ) (x : ℚ) (k : ℤ)
    (h : |f x| > eps ∧ k ≤ m) (hdf : df x ≠ 0) :
    newtonLoop f df eps m x k
      = newtonLoop f df eps m (x - f x / df x) (k + 1) := by
  conv_lhs => rw [newtonLoop]
  simp only [dif_pos h, if_neg hdf]

/-- Postcondition of the Newton loop: at exit the loop guard is false, the
counter never decreased, and (if it started within bounds) the counter is at
most `max_its + 1`. -/
theorem newtonLoop_post (f df : ℚ → ℚ) (eps : ℚ) (m : ℤ) (x : ℚ) (k : ℤ) :
    ∀ x₁ k₁, newtonLoop f df eps m x k = .ok (x₁, k₁) →
      ¬(|f x₁| > eps ∧ k₁ ≤ m) ∧ k ≤ k₁ ∧ (k ≤ m + 1 → k₁ ≤ m + 1) := by
  induction x, k using newtonLoop.induct f df eps m with
  | case1 x k hc hdf =>
      intro x₁ k₁ h
      rw [newtonLoop_div0 f df eps m x k hc hdf] at h
      exact absurd h (by simp)
  | case2 x k hc hdf ih =>
      intro x₁ k₁ h
      rw [newtonLoop_step f df eps m x k hc hdf] at h
      obtain ⟨h1, h2, h3⟩ := ih x₁ k₁ h
      have := hc.2
      exact ⟨h1, by omega, fun hk => h3 (by omega)⟩
  | case3 x k hc =>
      intro x₁ k₁ h
      rw [newtonLoop_exit f df eps m x k hc] at h
      cases h
      exact ⟨hc, le_refl _, fun hk => hk⟩

/-- The Newton loop never fails with anything but a zero division. -/
theorem newtonLoop_ok_or_div0 (f df : ℚ → ℚ) (eps : ℚ) (m : ℤ) (x : ℚ)
    (k : ℤ) :
    (∃ p, newtonLoop f df eps m x k = .ok p) ∨
      newtonLoop f df eps m x k = .error .zeroDivisionError := by
  induction x, k using newtonLoop.induct f df eps m with
  | case1 x k hc hdf => exact .inr (newtonLoop_div0 f df eps m x k hc hdf)
  | case2 x k hc hdf ih => rw [newtonLoop_step f df eps m x k hc hdf]; exact ih
  | case3 x k hc => exact .inl ⟨(x, k), newtonLoop_exit f df eps m x k hc⟩

theorem bisectStep_k (f : ℚ → ℚ) (s : BisectState) :
    (bisectStep f s).k = s.k + 1 := by
  unfold bisectStep
  split <;> rfl

theorem bisectLoop_exit (f : ℚ → ℚ) (eps : ℚ) (m : ℤ) (s : BisectState)
    (h : ¬(|f s.c| > eps ∧ s.k ≤ m)) : bisectLoop f eps m s = s := by
  rw [bisectLoop]
  simp only [dif_neg h]

theorem bisectLoop_step (f : ℚ → ℚ) (eps : ℚ) (m : ℤ) (s : BisectState)
    (h : |f s.c| > eps ∧ s.k ≤ m) :
    bisectLoop f eps m s = bisectLoop f eps m (bisectStep f s) := by
  conv_lhs => rw [bisectLoop]
  simp only [dif_pos h]

/-- Postcondition of the bisection loop: at exit the loop guard is false,
the counter never decreased, and (if it started within bounds) the counter
is at most `max_its + 1`. -/
theorem bisectLoop_post (f : ℚ → ℚ) (eps : ℚ) (m : ℤ) (s : BisectState) :
    ¬(|f (bisectLoop f eps m s).c| > eps ∧ (bisectLoop f eps m s).k ≤ m) ∧
      s.k ≤ (bisectLoop f eps m s).k ∧
      (s.k ≤ m + 1 → (bisectLoop f eps m s).k ≤ m + 1) := by
  induction s using bisectLoop.induct f eps m with
  | case1 s hc ih =>
      rw [bisectLoop_step f eps m s hc]
      obtain ⟨h1, h2, h3⟩ := ih
      rw [bisectStep_k] at h2 h3
      have := hc.2
      exact ⟨h1, by omega, fun hk => h3 (by omega)⟩
  | case2 s hc =>
      rw [bisectLoop_exit f eps m s hc]
      exact ⟨hc, le_refl _, fun hk => hk⟩

/-- Any state predicate preserved by `bisectStep` is preserved by the whole
bisection loop. -/
theorem bisectLoop_preserves (f : ℚ → ℚ) (eps : ℚ) (m : ℤ)
    (P : BisectState → Prop) (hP : ∀ s, P s → P (bisectStep f s)) :
    ∀ s, P s → P (bisectLoop f eps m s) := by
  intro s
  induction s using bisectLoop.induct f eps m with
  | case1 s hc ih =>
      intro hs
      rw [bisectLoop_step f eps m s hc]
      exact ih (hP s hs)
  | case2 s hc =>
      intro hs
      rw [bisectLoop_exit f eps m s hc]
      exact hs

/-! ### Claim theorems -/

/-- C10: if the initial estimate already satisfies the tolerance,
`|f x_0| ≤ eps`, then `newton_raphson` returns `x_0` itself after zero
update steps, and the derivative `df` is never evaluated: the result is
the same for every derivative function, so the call succeeds even when
`df x_0 = 0` or `df` is otherwise ill-behaved. -/
theorem c10_immediate_convergence (f df : ℚ → ℚ) (x_0 eps : ℚ) (m : ℤ)
    (h : |f x_0| ≤ eps) :
    newton_raphson f df x_0 eps m = .ok x_0 ∧
      ∀ dg : ℚ → ℚ, newton_raphson f df x_0 eps m
        = newton_raphson f dg x_0 eps m := by
  have key : ∀ dg : ℚ → ℚ, newton_raphson f dg x_0 eps m = .ok x_0 := by
    intro dg
    unfold newton_raphson
    rw [newtonLoop_exit f dg eps m x_0 1 (fun hc => absurd hc.1 (not_lt.mpr h))]
    simp only []
    rw [if_neg (fun hc => absurd hc.2 (not_lt.mpr h))]
  exact ⟨key df, fun dg => (key df).trans (key dg).symm⟩

/-- Witness for C10 at a concrete input where the derivative is the constant
zero function. -/
theorem c10_immediate_convergence_witness :
    |(fun _ : ℚ => (0 : ℚ)) 2| ≤ 1 ∧
      (newton_raphson (fun _ => 0) (fun _ => 0) 2 1 20 = .ok 2 ∧
        ∀ dg : ℚ → ℚ, newton_raphson (fun _ => 0) (fun _ => 0) 2 1 20
          = newton_raphson (fun _ => 0) dg 2 1 20) :=
  ⟨by decide, c10_immediate_convergence (fun _ => 0) (fun _ => 0) 2 1 20
    (by decide)⟩

/-- C2: the composite solver returns the Newton-Raphson result immediately
when that phase converges; when it fails with `ConvergenceError` it invokes
`bisection` with `(f, x_0, x_1, eps, max_its_b)` and returns or propagates
that call's outcome; any other failure of the Newton phase propagates to
the caller without the fallback being attempted. -/
theorem c2_solve_composition (f df : ℚ → ℚ) (x_0 x_1 eps : ℚ)
    (n b : ℤ) :
    (∀ r, newton_raphson f df x_0 eps n = .ok r →
        solve f df x_0 x_1 eps n b = .ok r) ∧
    (newton_raphson f df x_0 eps n = .error .convergenceError →
        solve f df x_0 x_1 eps n b = bisection f x_0 x_1 eps b) ∧
    (∀ e, e ≠ Err.convergenceError →
        newton_raphson f df x_0 eps n = .error e →
        solve f df x_0 x_1 eps n b = .error e) := by
  refine ⟨fun r hN => ?_, fun hN => ?_, fun e he hN => ?_⟩
  · unfold solve
    rw [hN]
  · unfold solve
    rw [hN]
  · unfold solve
    rw [hN]
    cases e with
    | convergenceError => exact absurd rfl he
    | valueError => rfl
    | zeroDivisionError => rfl

/-- Witness for C2: with `f x = x` and starting point `0` the Newton phase
converges immediately, and the composite solver returns its result. -/
theorem c2_solve_composition_witness :
    newton_raphson (fun x => x) (fun _ => 1) 0 1 20 = .ok 0 ∧
      solve (fun x => x) (fun _ => 1) 0 1 1 20 20 = .ok 0 := by
  have hN : newton_raphson (fun x : ℚ => x) (fun _ => 1) 0 1 20 = .ok 0 := by
    unfold newton_raphson
    rw [newtonLoop_exit (fun x : ℚ => x) (fun _ => 1) 1 20 0 1
      (fun hc => absurd hc.1 (by decide))]
    simp only []
    rw [if_neg (fun hc => absurd hc.2 (by decide))]
  exact ⟨hN,
    (c2_solve_composition (fun x => x) (fun _ => 1) 0 1 1 20 20).1 0 hN⟩

/-- C3: `bisection` fails with the `ValueError` signal if and only if
`f x_0 * f x_1 > 0`, for every tolerance and cap (so the check is decided
before and independently of any iteration), and `ValueError` is a failure
kind distinct from `ConvergenceError`. -/
theorem c3_bracket_precondition (f : ℚ → ℚ) (x_0 x_1 : ℚ) :
    (∀ (eps : ℚ) (m : ℤ), bisection f x_0 x_1 eps m = .error .valueError
      ↔ f x_0 * f x_1 > 0) ∧
    Err.valueError ≠ Err.convergenceError := by
  refine ⟨fun eps m => ⟨fun h => ?_, fun h => ?_⟩, by decide⟩
  · by_contra hbr
    rw [bisection, if_neg hbr] at h
    set s := bisectLoop f eps m ⟨x_0, x_1, (x_0 + x_1) / 2, 1⟩ with hs
    by_cases hc : s.k = m + 1 ∧ |f s.c| > eps
    · rw [if_pos hc] at h
      exact Except.error.inj h |> fun he => Err.noConfusion he
    · rw [if_neg hc] at h
      exact Except.noConfusion h
  · rw [bisection, if_pos h]

/-- Witness for C3 at the spec's own test vector `f x = x^2 - 2`,
`x_0 = 0`, `x_1 = 1/2` (both values positive). -/
theorem c3_bracket_precondition_witness :
    bisection (fun x => x * x - 2) 0 (1 / 2) (1 / 100000) 20
        = .error .valueError ∧
      (fun x : ℚ => x * x - 2) 0 * (fun x : ℚ => x * x - 2) (1 / 2) > 0 :=
  ⟨((c3_bracket_precondition (fun x => x * x - 2) 0 (1 / 2)).1
      (1 / 100000) 20).mpr (by norm_num), by norm_num⟩

/-- C1: with a positive tolerance and positive iteration caps, whenever any
of the three entry points returns a value `r` rather than failing, that
value satisfies `|f r| ≤ eps`: no call path returns a value violating the
tolerance contract. -/
theorem c1_tolerance_contract (f df : ℚ → ℚ) (x_0 x_1 eps : ℚ) (n b : ℤ)
    (heps : 0 < eps) (hn : 0 < n) (hb : 0 < b) :
    (∀ r, newton_raphson f df x_0 eps n = .ok r → |f r| ≤ eps) ∧
    (∀ r, bisection f x_0 x_1 eps b = .ok r → |f r| ≤ eps) ∧
    (∀ r, solve f df x_0 x_1 eps n b = .ok r → |f r| ≤ eps) := by
  have hnewton : ∀ r, newton_raphson f df x_0 eps n = .ok r → |f r| ≤ eps := by
    intro r h
    unfold newton_raphson at h
    cases hL : newtonLoop f df eps n x_0 1 with
    | error e => rw [hL] at h; exact Except.noConfusion h
    | ok p =>
        obtain ⟨x, k⟩ := p
        rw [hL] at h
        simp only [] at h
        obtain ⟨hg, -, hk1⟩ := newtonLoop_post f df eps n x_0 1 x k hL
        by_cases hc : k = n + 1 ∧ |f x| > eps
        · rw [if_pos hc] at h; exact Except.noConfusion h
        · rw [if_neg hc] at h
          injection h with h
          subst h
          by_contra hfr
          push_neg at hfr
          have hkn : ¬ k ≤ n := fun hk => hg ⟨hfr, hk⟩
          have hk2 : k ≤ n + 1 := hk1 (by omega)
          exact hc ⟨by omega, hfr⟩
  have hbis : ∀ r, bisection f x_0 x_1 eps b = .ok r → |f r| ≤ eps := by
    intro r h
    by_cases hbr : f x_0 * f x_1 > 0
    · rw [bisection, if_pos hbr] at h; exact Except.noConfusion h
    · rw [bisection, if_neg hbr] at h
      simp only [] at h
      obtain ⟨hg, -, hk1⟩ :=
        bisectLoop_post f eps b ⟨x_0, x_1, (x_0 + x_1) / 2, 1⟩
      set s := bisectLoop f eps b ⟨x_0, x_1, (x_0 + x_1) / 2, 1⟩ with hs
      by_cases hc : s.k = b + 1 ∧ |f s.c| > eps
      · rw [if_pos hc] at h; exact Except.noConfusion h
      · rw [if_neg hc] at h
        injection h with h
        subst h
        by_contra hfr
        push_neg at hfr
        have hkn : ¬ s.k ≤ b := fun hk => hg ⟨hfr, hk⟩
        have hk2 : s.k ≤ b + 1 := hk1 (show (1 : ℤ) ≤ b + 1 by omega)
        exact hc ⟨by omega, hfr⟩
  refine ⟨hnewton, hbis, fun r h => ?_⟩
  unfold solve at h
  cases hN : newton_raphson f df x_0 eps n with
  | ok x =>
      rw [hN] at h
      injection h with h
      subst h
      exact hnewton _ hN
  | error e =>
      rw [hN] at h
      cases e with
      | convergenceError => exact hbis r h
      | valueError => exact Except.noConfusion h
      | zeroDivisionError => exact Except.noConfusion h

/-- Witness for C1 at `f x = x`, `x_0 = 0`, `x_1 = 1`, `eps = 1`, caps 20. -/
theorem c1_tolerance_contract_witness :
    (0 : ℚ) < 1 ∧ (0 : ℤ) < 20 ∧
      ((∀ r, newton_raphson (fun x => x) (fun _ => 1) 0 1 20 = .ok r
          → |(fun x : ℚ => x) r| ≤ 1) ∧
       (∀ r, bisection (fun x => x) 0 1 1 20 = .ok r
          → |(fun x : ℚ => x) r| ≤ 1) ∧
       (∀ r, solve (fun x => x) (fun _ => 1) 0 1 1 20 20 = .ok r
          → |(fun x : ℚ => x) r| ≤ 1)) :=
  ⟨by decide, by decide,
    c1_tolerance_contract (fun x => x) (fun _ => 1) 0 1 1 20 20
      (by decide) (by decide) (by decide)⟩

/-- C4: Newton-Raphson iteration starts from `(x_0, 1)` and repeatedly
updates `x` to `x - f x / df x`, incrementing the count once per update,
while `|f x| > eps` and the count is at most `max_its`; the loop stops as
soon as `|f x| ≤ eps` and the call then returns the current `x`; the call
fails with `ConvergenceError` exactly when the loop exits with its count
strictly exceeding `max_its` while `|f x| > eps` still holds. -/
theorem c4_newton_algorithm (f df : ℚ → ℚ) (x_0 eps : ℚ) (m : ℤ)
    (heps : 0 < eps) (hm : 0 < m) :
    (∀ x k, |f x| > eps → k ≤ m → df x ≠ 0 →
        newtonLoop f df eps m x k
          = newtonLoop f df eps m (x - f x / df x) (k + 1)) ∧
    (∀ x k, |f x| ≤ eps → newtonLoop f df eps m x k = .ok (x, k)) ∧
    (∀ r, newton_raphson f df x_0 eps m = .ok r →
        ∃ k, newtonLoop f df eps m x_0 1 = .ok (r, k) ∧ |f r| ≤ eps) ∧
    (newton_raphson f df x_0 eps m = .error .convergenceError ↔
        ∃ p : ℚ × ℤ, newtonLoop f df eps m x_0 1 = .ok p ∧ m < p.2
          ∧ |f p.1| > eps) := by
  refine ⟨fun x k h1 h2 h3 => newtonLoop_step f df eps m x k ⟨h1, h2⟩ h3,
    fun x k h => newtonLoop_exit f df eps m x k
      (fun hc => absurd hc.1 (not_lt.mpr h)), ?_, ?_, ?_⟩
  · intro r h
    unfold newton_raphson at h
    cases hL : newtonLoop f df eps m x_0 1 with
    | error e => rw [hL] at h; exact Except.noConfusion h
    | ok p =>
        obtain ⟨x, k⟩ := p
        rw [hL] at h
        simp only [] at h
        obtain ⟨hg, -, hk1⟩ := newtonLoop_post f df eps m x_0 1 x k hL
        by_cases hc : k = m + 1 ∧ |f x| > eps
        · rw [if_pos hc] at h; exact Except.noConfusion h
        · rw [if_neg hc] at h
          injection h with h
          subst h
          refine ⟨k, rfl, ?_⟩
          by_contra hfr
          push_neg at hfr
          have hkn : ¬ k ≤ m := fun hk => hg ⟨hfr, hk⟩
          have hk2 : k ≤ m + 1 := hk1 (by omega)
          exact hc ⟨by omega, hfr⟩
  · intro h
    rcases newtonLoop_ok_or_div0 f df eps m x_0 1 with ⟨⟨x, k⟩, hp⟩ | hp
    · unfold newton_raphson at h
      rw [hp] at h
      simp only [] at h
      by_cases hc : k = m + 1 ∧ |f x| > eps
      · exact ⟨(x, k), hp, by have := hc.1; omega, hc.2⟩
      · rw [if_neg hc] at h; exact Except.noConfusion h
    · unfold newton_raphson at h
      rw [hp] at h
      injection h with h
      exact Err.noConfusion h
  · rintro ⟨⟨x, k⟩, hL, hk, hfx⟩
    unfold newton_raphson
    rw [hL]
    simp only []
    obtain ⟨-, -, hk1⟩ := newtonLoop_post f df eps m x_0 1 x k hL
    have hk2 : k ≤ m + 1 := hk1 (by omega)
    rw [if_pos ⟨by omega, hfx⟩]

/-- Witness for C4 at `f x = x`, `df x = 1`, `x_0 = 0`, `eps = 1`, cap 20. -/
theorem c4_newton_algorithm_witness :
    (0 : ℚ) < 1 ∧ (0 : ℤ) < 20 ∧
      ((∀ x k, |(fun x : ℚ => x) x| > 1 → k ≤ 20 → (fun _ : ℚ => (1:ℚ)) x ≠ 0 →
          newtonLoop (fun x => x) (fun _ => 1) 1 20 x k
            = newtonLoop (fun x => x) (fun _ => 1) 1 20
                (x - (fun x : ℚ => x) x / (fun _ : ℚ => (1:ℚ)) x) (k + 1)) ∧
       (∀ x k, |(fun x : ℚ => x) x| ≤ 1 →
          newtonLoop (fun x => x) (fun _ => 1) 1 20 x k = .ok (x, k)) ∧
       (∀ r, newton_raphson (fun x => x) (fun _ => 1) 0 1 20 = .ok r →
          ∃ k, newtonLoop (fun x => x) (fun _ => 1) 1 20 0 1 = .ok (r, k)
            ∧ |(fun x : ℚ => x) r| ≤ 1) ∧
       (newton_raphson (fun x => x) (fun _ => 1) 0 1 20
            = .error .convergenceError ↔
          ∃ p : ℚ × ℤ, newtonLoop (fun x => x) (fun _ => 1) 1 20 0 1 = .ok p
            ∧ 20 < p.2 ∧ |(fun x : ℚ => x) p.1| > 1)) :=
  ⟨by decide, by decide,
    c4_newton_algorithm (fun x => x) (fun _ => 1) 0 1 20
      (by decide) (by decide)⟩

/-- C5: bisection maintains a bracket `[a, b]` initialised to `(x_0, x_1)`
with midpoint `c = (a+b)/2` computed before the loop and recomputed once
per iteration; while `|f c| > eps` and the count is within the cap it
replaces `a` with `c` when `f a * f c > 0` and otherwise replaces `b` with
`c` (including the boundary case `f a * f c = 0`); it returns the final
`c` when `|f c| ≤ eps`, and fails with `ConvergenceError` exactly when the
cap was exceeded while `|f c| > eps`. -/
theorem c5_bisection_algorithm (f : ℚ → ℚ) (x_0 x_1 eps : ℚ) (m : ℤ)
    (hbr : f x_0 * f x_1 ≤ 0) (heps : 0 < eps) (hm : 0 < m) :
    (∀ s : BisectState, |f s.c| > eps → s.k ≤ m →
        bisectLoop f eps m s = bisectLoop f eps m (bisectStep f s)) ∧
    (∀ s : BisectState, f s.a * f s.c > 0 →
        bisectStep f s = ⟨s.c, s.b, (s.c + s.b) / 2, s.k + 1⟩) ∧
    (∀ s : BisectState, ¬(f s.a * f s.c > 0) →
        bisectStep f s = ⟨s.a, s.c, (s.a + s.c) / 2, s.k + 1⟩) ∧
    (|f (bisectLoop f eps m ⟨x_0, x_1, (x_0 + x_1) / 2, 1⟩).c| ≤ eps →
        bisection f x_0 x_1 eps m
          = .ok (bisectLoop f eps m ⟨x_0, x_1, (x_0 + x_1) / 2, 1⟩).c) ∧
    (bisection f x_0 x_1 eps m = .error .convergenceError ↔
        (m < (bisectLoop f eps m ⟨x_0, x_1, (x_0 + x_1) / 2, 1⟩).k ∧
          |f (bisectLoop f eps m ⟨x_0, x_1, (x_0 + x_1) / 2, 1⟩).c| > eps)) := by
  have hnbr : ¬ (f x_0 * f x_1 > 0) := not_lt.mpr hbr
  obtain ⟨hg, -, hk1⟩ := bisectLoop_post f eps m ⟨x_0, x_1, (x_0 + x_1) / 2, 1⟩
  have hk2 : (bisectLoop f eps m ⟨x_0, x_1, (x_0 + x_1) / 2, 1⟩).k ≤ m + 1 :=
    hk1 (show (1 : ℤ) ≤ m + 1 by omega)
  refine ⟨fun s h1 h2 => bisectLoop_step f eps m s ⟨h1, h2⟩,
    fun s h => by unfold bisectStep; rw [if_pos h],
    fun s h => by unfold bisectStep; rw [if_neg h], fun h => ?_, ?_, ?_⟩
  · unfold bisection
    rw [if_neg hnbr]
    simp only []
    rw [if_neg (fun hc => absurd hc.2 (not_lt.mpr h))]
  · intro h
    unfold bisection at h
    rw [if_neg hnbr] at h
    simp only [] at h
    by_cases hc : (bisectLoop f eps m ⟨x_0, x_1, (x_0 + x_1) / 2, 1⟩).k = m + 1
        ∧ |f (bisectLoop f eps m ⟨x_0, x_1, (x_0 + x_1) / 2, 1⟩).c| > eps
    · exact ⟨by have := hc.1; omega, hc.2⟩
    · rw [if_neg hc] at h
      exact Except.noConfusion h
  · rintro ⟨hk, hfc⟩
    unfold bisection
    rw [if_neg hnbr]
    simp only []
    rw [if_pos ⟨by omega, hfc⟩]

/-- Witness for C5 at `f x = x`, bracket `(-1, 1)`, `eps = 1`, cap 20. -/
theorem c5_bisection_algorithm_witness :
    (fun x : ℚ => x) (-1) * (fun x : ℚ => x) 1 ≤ 0 ∧ (0 : ℚ) < 1 ∧
      (0 : ℤ) < 20 ∧
      ((∀ s : BisectState, |(fun x : ℚ => x) s.c| > 1 → s.k ≤ 20 →
          bisectLoop (fun x => x) 1 20 s
            = bisectLoop (fun x => x) 1 20 (bisectStep (fun x => x) s)) ∧
       (∀ s : BisectState, (fun x : ℚ => x) s.a * (fun x : ℚ => x) s.c > 0 →
          bisectStep (fun x => x) s = ⟨s.c, s.b, (s.c + s.b) / 2, s.k + 1⟩) ∧
       (∀ s : BisectState,
          ¬((fun x : ℚ => x) s.a * (fun x : ℚ => x) s.c > 0) →
          bisectStep (fun x => x) s = ⟨s.a, s.c, (s.a + s.c) / 2, s.k + 1⟩) ∧
       (|(fun x : ℚ => x)
            (bisectLoop (fun x => x) 1 20 ⟨-1, 1, (-1 + 1) / 2, 1⟩).c| ≤ 1 →
          bisection (fun x => x) (-1) 1 1 20
            = .ok (bisectLoop (fun x => x) 1 20 ⟨-1, 1, (-1 + 1) / 2, 1⟩).c) ∧
       (bisection (fun x => x) (-1) 1 1 20 = .error .convergenceError ↔
          (20 < (bisectLoop (fun x => x) 1 20 ⟨-1, 1, (-1 + 1) / 2, 1⟩).k ∧
            |(fun x : ℚ => x)
              (bisectLoop (fun x => x) 1 20 ⟨-1, 1, (-1 + 1) / 2, 1⟩).c|
              > 1))) :=
  ⟨by norm_num, by norm_num, by decide,
    c5_bisection_algorithm (fun x => x) (-1) 1 1 20
      (by norm_num) (by norm_num) (by decide)⟩

/-- Each `bisectStep` recomputes the midpoint from the updated endpoints. -/
theorem bisectStep_mid (f : ℚ → ℚ) (s : BisectState) :
    (bisectStep f s).c = ((bisectStep f s).a + (bisectStep f s).b) / 2 := by
  unfold bisectStep
  split <;> rfl

/-- When the state's midpoint field is the actual midpoint, one
`bisectStep` exactly halves the bracket width. -/
theorem bisectStep_width (f : ℚ → ℚ) (s : BisectState)
    (h : s.c = (s.a + s.b) / 2) :
    |(bisectStep f s).b - (bisectStep f s).a| = |s.b - s.a| / 2 := by
  unfold bisectStep
  split <;> dsimp only <;> rw [h]
  · rw [show s.b - (s.a + s.b) / 2 = (s.b - s.a) / 2 by ring, abs_div]
    norm_num
  · rw [show (s.a + s.b) / 2 - s.a = (s.b - s.a) / 2 by ring, abs_div]
    norm_num

/-- The midpoint field stays the midpoint along every iterate of
`bisectStep` from the initial bisection state. -/
theorem bisectStep_iterate_mid (f : ℚ → ℚ) (x_0 x_1 : ℚ) (j : ℕ) :
    ((bisectStep f)^[j] ⟨x_0, x_1, (x_0 + x_1) / 2, 1⟩).c
      = (((bisectStep f)^[j] ⟨x_0, x_1, (x_0 + x_1) / 2, 1⟩).a
          + ((bisectStep f)^[j] ⟨x_0, x_1, (x_0 + x_1) / 2, 1⟩).b) / 2 := by
  cases j with
  | zero => rfl
  | succ j =>
      rw [Function.iterate_succ_apply']
      exact bisectStep_mid f _

/-- C6: after `k` iterations of the bisection step from a valid bracket,
the bracket width is exactly the initial width `|x_1 - x_0|` divided by
`2^k`, regardless of which branch was taken at each step. -/
theorem c6_interval_halving (f : ℚ → ℚ) (x_0 x_1 : ℚ) (k : ℕ)
    (hbr : f x_0 * f x_1 ≤ 0) :
    |((bisectStep f)^[k] ⟨x_0, x_1, (x_0 + x_1) / 2, 1⟩).b
        - ((bisectStep f)^[k] ⟨x_0, x_1, (x_0 + x_1) / 2, 1⟩).a|
      = |x_1 - x_0| / 2 ^ k := by
  induction k with
  | zero => simp
  | succ k ih =>
      rw [Function.iterate_succ_apply',
        bisectStep_width f _ (bisectStep_iterate_mid f x_0 x_1 k), ih,
        pow_succ]
      ring

/-- Witness for C6: `f x = x`, bracket `(0, 1)`, two iterations. -/
theorem c6_interval_halving_witness :
    (fun x : ℚ => x) 0 * (fun x : ℚ => x) 1 ≤ 0 ∧
      |((bisectStep (fun x => x))^[2] ⟨0, 1, (0 + 1) / 2, 1⟩).b
          - ((bisectStep (fun x => x))^[2] ⟨0, 1, (0 + 1) / 2, 1⟩).a|
        = |(1 : ℚ) - 0| / 2 ^ 2 :=
  ⟨by norm_num, c6_interval_halving (fun x => x) 0 1 2 (by norm_num)⟩

/-- The containment invariant for bisection states: all three scalars of
the state lie in the closed interval `[lo, hi]`. -/
def InBox (lo hi : ℚ) (s : BisectState) : Prop :=
  lo ≤ s.a ∧ s.a ≤ hi ∧ lo ≤ s.b ∧ s.b ≤ hi ∧ lo ≤ s.c ∧ s.c ≤ hi

theorem bisectStep_inBox (f : ℚ → ℚ) (lo hi : ℚ) (s : BisectState)
    (h : InBox lo hi s) : InBox lo hi (bisectStep f s) := by
  obtain ⟨h1, h2, h3, h4, h5, h6⟩ := h
  unfold bisectStep InBox
  split <;> dsimp only <;>
    refine ⟨by linarith, by linarith, by linarith, by linarith,
      by linarith, by linarith⟩

theorem initState_inBox (x_0 x_1 : ℚ) :
    InBox (min x_0 x_1) (max x_0 x_1)
      ⟨x_0, x_1, (x_0 + x_1) / 2, 1⟩ := by
  have h1 := min_le_left x_0 x_1
  have h2 := min_le_right x_0 x_1
  have h3 := le_max_left x_0 x_1
  have h4 := le_max_right x_0 x_1
  exact ⟨by linarith, by linarith, by linarith, by linarith,
    by linarith, by linarith⟩

/-- C9: from a valid bracket, every state reached by iterating the
bisection step from the initial state keeps its endpoints and midpoint
inside `[min x_0 x_1, max x_0 x_1]`; in particular any value `bisection`
returns lies in that interval. -/
theorem c9_bracket_containment (f : ℚ → ℚ) (x_0 x_1 eps : ℚ) (m : ℤ)
    (hbr : f x_0 * f x_1 ≤ 0) :
    (∀ k : ℕ, InBox (min x_0 x_1) (max x_0 x_1)
        ((bisectStep f)^[k] ⟨x_0, x_1, (x_0 + x_1) / 2, 1⟩)) ∧
    (∀ r, bisection f x_0 x_1 eps m = .ok r →
        min x_0 x_1 ≤ r ∧ r ≤ max x_0 x_1) := by
  constructor
  · intro k
    induction k with
    | zero => exact initState_inBox x_0 x_1
    | succ k ih =>
        rw [Function.iterate_succ_apply']
        exact bisectStep_inBox f _ _ _ ih
  · intro r h
    by_cases hc : f x_0 * f x_1 > 0
    · rw [bisection, if_pos hc] at h
      exact Except.noConfusion h
    · rw [bisection, if_neg hc] at h
      simp only [] at h
      have hbox : InBox (min x_0 x_1) (max x_0 x_1)
          (bisectLoop f eps m ⟨x_0, x_1, (x_0 + x_1) / 2, 1⟩) :=
        bisectLoop_preserves f eps m (InBox (min x_0 x_1) (max x_0 x_1))
          (bisectStep_inBox f _ _) _ (initState_inBox x_0 x_1)
      by_cases hk : (bisectLoop f eps m ⟨x_0, x_1, (x_0 + x_1) / 2, 1⟩).k
            = m + 1
          ∧ |f (bisectLoop f eps m ⟨x_0, x_1, (x_0 + x_1) / 2, 1⟩).c| > eps
      · rw [if_pos hk] at h
        exact Except.noConfusion h
      · rw [if_neg hk] at h
        injection h with h
        subst h
        exact ⟨hbox.2.2.2.2.1, hbox.2.2.2.2.2⟩

/-- Witness for C9 at `f x = x`, bracket `(-1, 1)`. -/
theorem c9_bracket_containment_witness :
    (fun x : ℚ => x) (-1) * (fun x : ℚ => x) 1 ≤ 0 ∧
      ((∀ k : ℕ, InBox (min (-1 : ℚ) 1) (max (-1 : ℚ) 1)
          ((bisectStep (fun x => x))^[k] ⟨-1, 1, (-1 + 1) / 2, 1⟩)) ∧
       (∀ r, bisection (fun x => x) (-1) 1 1 20 = .ok r →
          min (-1 : ℚ) 1 ≤ r ∧ r ≤ max (-1 : ℚ) 1)) :=
  ⟨by norm_num,
    c9_bracket_containment (fun x => x) (-1) 1 1 20 (by norm_num)⟩

/-- C7: a concrete input on which an iterate with `df x = 0` is reached
while `|f x| > eps`: with `f x = x + 1`, `df x = 0`, `x_0 = 0`,
`eps = 1/2`, the Newton phase fails with `ZeroDivisionError`, a failure
kind distinct from `ConvergenceError`; the composite solver surfaces
exactly that failure and never runs the bisection fallback, even though
the fallback bracket `(0, -2)` is valid and `bisection` on it would
succeed and return `-1`. -/
theorem c7_zero_derivative_fault :
    newton_raphson (fun x => x + 1) (fun _ => 0) 0 (1 / 2) 20
        = .error .zeroDivisionError ∧
      Err.zeroDivisionError ≠ Err.convergenceError ∧
      solve (fun x => x + 1) (fun _ => 0) 0 (-2) (1 / 2) 20 20
        = .error .zeroDivisionError ∧
      bisection (fun x => x + 1) 0 (-2) (1 / 2) 20 = .ok (-1) := by
  have hN : newton_raphson (fun x : ℚ => x + 1) (fun _ => 0) 0 (1 / 2) 20
      = .error .zeroDivisionError := by
    unfold newton_raphson
    rw [newtonLoop_div0 (fun x : ℚ => x + 1) (fun _ => 0) (1 / 2) 20 0 1
      ⟨by norm_num, by decide⟩ rfl]
  have hB : bisection (fun x : ℚ => x + 1) 0 (-2) (1 / 2) 20 = .ok (-1) := by
    unfold bisection
    rw [if_neg (by norm_num)]
    simp only []
    rw [bisectLoop_exit (fun x : ℚ => x + 1) (1 / 2) 20
      ⟨0, -2, (0 + -2) / 2, 1⟩ (fun hc => absurd hc.1 (by norm_num))]
    rw [if_neg (fun hc => absurd hc.1 (by decide))]
    norm_num
  refine ⟨hN, by decide, ?_, hB⟩
  unfold solve
  rw [hN]

/-- C8: the three entry points are pure functions of their arguments:
repeated calls with identical inputs produce identical outcomes (the same
returned value or the same failure kind), there being no hidden state. -/
theorem c8_determinism (f df : ℚ → ℚ) (x_0 x_1 eps : ℚ) (n b : ℤ) :
    newton_raphson f df x_0 eps n = newton_raphson f df x_0 eps n ∧
      bisection f x_0 x_1 eps b = bisection f x_0 x_1 eps b ∧
      solve f df x_0 x_1 eps n b = solve f df x_0 x_1 eps n b :=
  ⟨rfl, rfl, rfl⟩

end NonlinearSolvers
